import Mathlib

/-!
Shallow embedding of the statistical core of tests_and_plots.py.

Numeric samples are embedded as lists of real numbers; the numpy reductions
np.mean, np.var (ddof=1) and np.std (ddof=1) become list folds over the reals.
The scipy distribution functions (stats.norm.sf, stats.f.cdf, and the t tail
inside stats.ttest_ind) are external collaborators of the repository: they
enter the embedding as function parameters, and theorems assume of them only
documented mathematical facts of the corresponding distributions.
-/

noncomputable section

/-- Embeds np.mean: the sum of the entries divided by their number. -/
def npMean (x : List ℝ) : ℝ := x.sum / x.length

/-- Embeds np.var with ddof=1 (sample-corrected variance): the sum of squared
deviations from the mean, divided by n - 1. -/
def npVar (x : List ℝ) : ℝ :=
  ((x.map fun v => (v - npMean x) ^ 2).sum) / ((x.length : ℝ) - 1)

/-- Embeds np.std with ddof=1: the square root of the sample-corrected
variance. -/
def npStd (x : List ℝ) : ℝ := Real.sqrt (npVar x)

/-- Embeds cohen_d_independent (src/tests_and_plots.py, lines 30 to 36):
pooled standard deviation effect size for two independent samples. -/
def cohen_d_independent (x y : List ℝ) : ℝ :=
  (npMean x - npMean y) /
    Real.sqrt ((((x.length : ℝ) - 1) * npVar x + ((y.length : ℝ) - 1) * npVar y) /
      ((x.length : ℝ) + (y.length : ℝ) - 2))

/-- Embeds cohen_d_paired (src/tests_and_plots.py, lines 38 to 41): the mean
of the elementwise differences divided by their ddof=1 standard deviation. -/
def cohen_d_paired (a b : List ℝ) : ℝ :=
  npMean (List.zipWith (fun u v => u - v) a b) /
    npStd (List.zipWith (fun u v => u - v) a b)

/-- Embeds two_tailed_from_z (src/tests_and_plots.py, lines 43 to 45); the
parameter sf stands for the external scipy stats.norm.sf. -/
def two_tailed_from_z (sf : ℝ → ℝ) (z : ℝ) : ℝ := 2 * sf |z|

/-- Embeds the paired z statistic of analyze_heart (src/tests_and_plots.py,
lines 104 to 108): mean of the differences divided by their ddof=1 standard
deviation over the square root of n, where n is the length of before. -/
def heart_z_stat (before after : List ℝ) : ℝ :=
  npMean (List.zipWith (fun u v => u - v) before after) /
    (npStd (List.zipWith (fun u v => u - v) before after) /
      Real.sqrt (before.length))

/-- Embeds the paired z p-value of analyze_heart (src/tests_and_plots.py,
line 109): two_tailed_from_z applied to the z statistic. -/
def heart_z_p (sf : ℝ → ℝ) (before after : List ℝ) : ℝ :=
  two_tailed_from_z sf (heart_z_stat before after)

/-- Embeds the F statistic of analyze_factory (src/tests_and_plots.py, lines
148 to 150): the ratio of the two ddof=1 variances. -/
def fStat (x y : List ℝ) : ℝ := npVar x / npVar y

/-- Embeds the two-tailed F p-value of analyze_factory (src/tests_and_plots.py,
lines 151 to 157); the parameter cdf stands for the external scipy stats.f.cdf,
called at the statistic and the two degrees of freedom len - 1. -/
def fTwoTailedP (cdf : ℝ → ℕ → ℕ → ℝ) (x y : List ℝ) : ℝ :=
  if 1 < fStat x y then
    2 * (1 - cdf (fStat x y) (x.length - 1) (y.length - 1))
  else
    2 * cdf (fStat x y) (x.length - 1) (y.length - 1)

/-- Spec-side mean, written from the words of the specification: sum over n. -/
def specMean (x : List ℝ) : ℝ := x.sum / x.length

/-- Spec-side sample-corrected variance, written from the words of the
specification: squared deviations from the mean summed and divided by n - 1. -/
def specSampleVar (x : List ℝ) : ℝ :=
  ((x.map fun v => (v - specMean x) ^ 2).sum) / ((x.length : ℝ) - 1)

/-- Spec-side pooled standard deviation, written from the words of the
specification for cohen_d_independent. -/
def specPooledSD (x y : List ℝ) : ℝ :=
  Real.sqrt ((((x.length : ℝ) - 1) * specSampleVar x +
      ((y.length : ℝ) - 1) * specSampleVar y) /
    ((x.length : ℝ) + (y.length : ℝ) - 2))

/-- Spec-side paired z statistic, written from the words of the specification:
mean of the differences over their sample-corrected standard deviation divided
by the square root of n. -/
def specPairedZ (before after : List ℝ) : ℝ :=
  specMean (List.zipWith (fun u v => u - v) before after) /
    (Real.sqrt (specSampleVar (List.zipWith (fun u v => u - v) before after)) /
      Real.sqrt (before.length))

/-- Modelled from the spec: the Welch two-sample t statistic. The
implementation the repository calls, scipy stats.ttest_ind with equal_var set
to False, is not part of the repository source; the formula is the standard
one named by the specification: difference of means over the square root of
the sum of the two variance-over-n terms. -/
def welch_t_stat (a b : List ℝ) : ℝ :=
  (npMean a - npMean b) /
    Real.sqrt (npVar a / (a.length : ℝ) + npVar b / (b.length : ℝ))

/-- Modelled from the spec: the Welch-Satterthwaite degrees of freedom used by
the Welch t-test, symmetric in the two samples. -/
def welch_df (a b : List ℝ) : ℝ :=
  (npVar a / (a.length : ℝ) + npVar b / (b.length : ℝ)) ^ 2 /
    ((npVar a / (a.length : ℝ)) ^ 2 / ((a.length : ℝ) - 1) +
      (npVar b / (b.length : ℝ)) ^ 2 / ((b.length : ℝ) - 1))

/-- Modelled from the spec: the two-sided Welch p-value, twice the upper tail
of the t distribution (parameter sfT) at the Welch degrees of freedom and the
absolute statistic. -/
def welch_p (sfT : ℝ → ℝ → ℝ) (a b : List ℝ) : ℝ :=
  2 * sfT (welch_df a b) |welch_t_stat a b|

/-- Modelled from the spec: the F-distribution cumulative distribution
function named CDF_F by the specification (the external scipy stats.f.cdf).
For the degrees of freedom used below it has an exact closed form obtained
from the regularized incomplete beta function I:
CDF_F(t, d1, d2) = I (d1 t / (d1 t + d2)) (d1/2) (d2/2), so
CDF_F(t, 2, 4) = 1 - 4 / (t + 2) ^ 2,
CDF_F(t, 4, 2) = 4 t ^ 2 / (2 t + 1) ^ 2,
and the self-reciprocal CDF_F(t, 2, 2) = t / (t + 1) is used for every other
pair of degrees of freedom. -/
def fCDFmodel (t : ℝ) (d1 d2 : ℕ) : ℝ :=
  if t ≤ 0 then 0
  else if d1 = 2 ∧ d2 = 4 then 1 - 4 / (t + 2) ^ 2
  else if d1 = 4 ∧ d2 = 2 then 4 * t ^ 2 / (2 * t + 1) ^ 2
  else t / (t + 1)

lemma fCDFmodel_nonneg (t : ℝ) (d1 d2 : ℕ) : 0 ≤ fCDFmodel t d1 d2 := by
  unfold fCDFmodel
  split_ifs with h0 h24 h42
  · exact le_refl 0
  · have ht : 0 < t := not_le.mp h0
    have hsq : (4 : ℝ) ≤ (t + 2) ^ 2 := by nlinarith
    have hpos : (0 : ℝ) < (t + 2) ^ 2 := by nlinarith
    have : 4 / (t + 2) ^ 2 ≤ 1 := (div_le_one hpos).mpr hsq
    linarith
  · positivity
  · have ht : 0 < t := not_le.mp h0
    positivity

lemma fCDFmodel_le_one (t : ℝ) (d1 d2 : ℕ) : fCDFmodel t d1 d2 ≤ 1 := by
  unfold fCDFmodel
  split_ifs with h0 h24 h42
  · norm_num
  · have ht : 0 < t := not_le.mp h0
    have hpos : (0 : ℝ) < (t + 2) ^ 2 := by nlinarith
    have : 0 < 4 / (t + 2) ^ 2 := by positivity
    linarith
  · have ht : 0 < t := not_le.mp h0
    have hpos : (0 : ℝ) < (2 * t + 1) ^ 2 := by nlinarith
    have hle : 4 * t ^ 2 ≤ (2 * t + 1) ^ 2 := by nlinarith
    exact (div_le_one hpos).mpr hle
  · have ht : 0 < t := not_le.mp h0
    have : (0 : ℝ) < t + 1 := by linarith
    rw [div_le_one this]
    linarith

lemma fCDFmodel_reciprocal (t : ℝ) (ht : 0 < t) (d1 d2 : ℕ) :
    fCDFmodel t d1 d2 = 1 - fCDFmodel t⁻¹ d2 d1 := by
  have h1 : ¬ t ≤ 0 := not_le.mpr ht
  have h2 : ¬ t⁻¹ ≤ 0 := not_le.mpr (inv_pos.mpr ht)
  have ht0 : t ≠ 0 := ne_of_gt ht
  unfold fCDFmodel
  rw [if_neg h1, if_neg h2]
  by_cases h24 : d1 = 2 ∧ d2 = 4
  · obtain ⟨e1, e2⟩ := h24
    subst e1; subst e2
    rw [if_pos ⟨rfl, rfl⟩, if_neg (by decide), if_pos (by decide)]
    have ha : (t + 2) ≠ 0 := by positivity
    have hb : 2 * t⁻¹ + 1 ≠ 0 := by positivity
    field_simp
    ring
  · by_cases h42 : d1 = 4 ∧ d2 = 2
    · obtain ⟨e1, e2⟩ := h42
      subst e1; subst e2
      rw [if_neg (by decide), if_pos ⟨rfl, rfl⟩, if_pos (by decide)]
      have ha : (2 * t + 1) ≠ 0 := by positivity
      have hb : t⁻¹ + 2 ≠ 0 := by positivity
      field_simp
      ring
    · have h24s : ¬ (d2 = 2 ∧ d1 = 4) := fun h => h42 ⟨h.2, h.1⟩
      have h42s : ¬ (d2 = 4 ∧ d1 = 2) := fun h => h24 ⟨h.2, h.1⟩
      rw [if_neg h24, if_neg h42, if_neg h24s, if_neg h42s]
      have ha : t + 1 ≠ 0 := by positivity
      have hb : t⁻¹ + 1 ≠ 0 := by positivity
      field_simp
      ring_nf
      simp

lemma npVar_nonneg (x : List ℝ) (hx : 2 ≤ x.length) : 0 ≤ npVar x := by
  unfold npVar
  apply div_nonneg
  · apply List.sum_nonneg
    intro a ha
    obtain ⟨b, hb, rfl⟩ := List.mem_map.mp ha
    positivity
  · have h : (2 : ℝ) ≤ (x.length : ℝ) := by exact_mod_cast hx
    linarith

lemma npVar_l3 : npVar [(0 : ℝ), 1, 2] = 1 := by norm_num [npVar, npMean]

lemma npVar_l5 : npVar [(-1 : ℝ), -1, 0, 1, 1] = 1 := by norm_num [npVar, npMean]

lemma npVar_l3b : npVar [(0 : ℝ), 2, 4] = 4 := by norm_num [npVar, npMean]

lemma fStat_l3_l5 : fStat [(0 : ℝ), 1, 2] [-1, -1, 0, 1, 1] = 1 := by
  rw [fStat, npVar_l3, npVar_l5]; norm_num

lemma fStat_l5_l3 : fStat [(-1 : ℝ), -1, 0, 1, 1] [0, 1, 2] = 1 := by
  rw [fStat, npVar_l3, npVar_l5]; norm_num

lemma fCDFmodel_one_24 : fCDFmodel 1 2 4 = 5 / 9 := by
  unfold fCDFmodel
  rw [if_neg (by norm_num : ¬ (1 : ℝ) ≤ 0), if_pos ⟨rfl, rfl⟩]
  norm_num

lemma fCDFmodel_one_42 : fCDFmodel 1 4 2 = 4 / 9 := by
  unfold fCDFmodel
  rw [if_neg (by norm_num : ¬ (1 : ℝ) ≤ 0), if_neg (by decide), if_pos ⟨rfl, rfl⟩]
  norm_num

lemma fP_swap_left : fTwoTailedP fCDFmodel [(0 : ℝ), 1, 2] [-1, -1, 0, 1, 1] = 10 / 9 := by
  unfold fTwoTailedP
  rw [if_neg (by rw [fStat_l3_l5]; norm_num), fStat_l3_l5]
  norm_num [fCDFmodel_one_24]

lemma fP_swap_right : fTwoTailedP fCDFmodel [(-1 : ℝ), -1, 0, 1, 1] [0, 1, 2] = 8 / 9 := by
  unfold fTwoTailedP
  rw [if_neg (by rw [fStat_l5_l3]; norm_num), fStat_l5_l3]
  norm_num [fCDFmodel_one_42]

/-- C1, amended part: for any survival function that on the nonnegative reals
lies between 0 and one half (true of the standard normal stats.norm.sf), the
two-sided normal p-value lies in the closed interval from 0 to 1; for any
cumulative distribution function with values between 0 and 1 (true of
stats.f.cdf), the two-tailed F-test p-value assembled by the branch of
analyze_factory lies in the closed interval from 0 to 2, and no better bound
holds. -/
theorem C1_pvalue_range (sf : ℝ → ℝ) (hsf : ∀ t, 0 ≤ t → 0 ≤ sf t ∧ sf t ≤ 1 / 2)
    (cdf : ℝ → ℕ → ℕ → ℝ) (hcdf : ∀ t d1 d2, 0 ≤ cdf t d1 d2 ∧ cdf t d1 d2 ≤ 1)
    (z : ℝ) (x y : List ℝ) :
    (0 ≤ two_tailed_from_z sf z ∧ two_tailed_from_z sf z ≤ 1) ∧
    (0 ≤ fTwoTailedP cdf x y ∧ fTwoTailedP cdf x y ≤ 2) := by
  obtain ⟨h1, h2⟩ := hsf |z| (abs_nonneg z)
  obtain ⟨h3, h4⟩ := hcdf (fStat x y) (x.length - 1) (y.length - 1)
  refine ⟨⟨?_, ?_⟩, ?_⟩
  · unfold two_tailed_from_z; linarith
  · unfold two_tailed_from_z; linarith
  · unfold fTwoTailedP
    split_ifs with h
    · constructor <;> linarith
    · constructor <;> linarith

/-- C1, witness for the amended statement at concrete inputs. -/
theorem C1_pvalue_range_witness :
    (0 ≤ two_tailed_from_z (fun _ => 1 / 4) 0 ∧
      two_tailed_from_z (fun _ => 1 / 4) 0 ≤ 1) ∧
    (0 ≤ fTwoTailedP (fun _ _ _ => 1 / 2) [(0 : ℝ), 1, 2] [0, 2, 4] ∧
      fTwoTailedP (fun _ _ _ => 1 / 2) [(0 : ℝ), 1, 2] [0, 2, 4] ≤ 2) :=
  C1_pvalue_range (fun _ => 1 / 4) (fun _ _ => by norm_num)
    (fun _ _ _ => 1 / 2) (fun _ _ _ => by norm_num) 0 [0, 1, 2] [0, 2, 4]

/-- C1, counterexample to the claim as stated: with the genuine F-distribution
CDF for degrees of freedom (2, 4), at the well-formed non-degenerate samples
x = [0, 1, 2] and y = [-1, -1, 0, 1, 1] (both variances equal to 1, so the
statistic is 1 and the else branch fires), the two-tailed F p-value is
2 times 5/9, which is strictly greater than 1. -/
theorem C1_counterexample :
    fTwoTailedP fCDFmodel [(0 : ℝ), 1, 2] [-1, -1, 0, 1, 1] = 10 / 9 ∧
    1 < fTwoTailedP fCDFmodel [(0 : ℝ), 1, 2] [-1, -1, 0, 1, 1] := by
  constructor
  · exact fP_swap_left
  · rw [fP_swap_left]; norm_num

/-- C2: for every pair of samples of size at least 2, the F statistic of
analyze_factory is the ratio of the sample-corrected variances, and the
two-tailed p-value equals 2 times one minus the F CDF at the statistic with
degrees of freedom (n_a - 1, n_b - 1) when the statistic exceeds 1, and
2 times the F CDF there otherwise. -/
theorem C2_f_test_formula (cdf : ℝ → ℕ → ℕ → ℝ) (x y : List ℝ)
    (hx : 2 ≤ x.length) (hy : 2 ≤ y.length) :
    fStat x y = specSampleVar x / specSampleVar y ∧
    fTwoTailedP cdf x y =
      (if 1 < specSampleVar x / specSampleVar y then
        2 * (1 - cdf (specSampleVar x / specSampleVar y)
          (x.length - 1) (y.length - 1))
      else
        2 * cdf (specSampleVar x / specSampleVar y)
          (x.length - 1) (y.length - 1)) :=
  ⟨rfl, rfl⟩

/-- C2, witness at concrete inputs. -/
theorem C2_f_test_formula_witness :
    2 ≤ [(0 : ℝ), 1, 2].length ∧ 2 ≤ [(0 : ℝ), 2, 4].length ∧
    (fStat [(0 : ℝ), 1, 2] [0, 2, 4] =
        specSampleVar [(0 : ℝ), 1, 2] / specSampleVar [(0 : ℝ), 2, 4] ∧
      fTwoTailedP (fun _ _ _ => 1 / 3) [(0 : ℝ), 1, 2] [0, 2, 4] =
        (if 1 < specSampleVar [(0 : ℝ), 1, 2] / specSampleVar [(0 : ℝ), 2, 4] then
          2 * (1 - (fun _ _ _ => (1 : ℝ) / 3)
            (specSampleVar [(0 : ℝ), 1, 2] / specSampleVar [(0 : ℝ), 2, 4])
            ([(0 : ℝ), 1, 2].length - 1) ([(0 : ℝ), 2, 4].length - 1))
        else
          2 * (fun _ _ _ => (1 : ℝ) / 3)
            (specSampleVar [(0 : ℝ), 1, 2] / specSampleVar [(0 : ℝ), 2, 4])
            ([(0 : ℝ), 1, 2].length - 1) ([(0 : ℝ), 2, 4].length - 1))) :=
  ⟨by norm_num, by norm_num,
    C2_f_test_formula (fun _ _ _ => 1 / 3) [0, 1, 2] [0, 2, 4]
      (by norm_num) (by norm_num)⟩

/-- C3: for every pair of samples with total size greater than 2,
cohen_d_independent is the difference of the means divided by the pooled
standard deviation built from the sample-corrected variances. -/
theorem C3_cohen_d_independent_formula (x y : List ℝ)
    (h : 2 < x.length + y.length) :
    cohen_d_independent x y =
      (specMean x - specMean y) / specPooledSD x y := rfl

/-- C3, witness at concrete inputs. -/
theorem C3_cohen_d_independent_formula_witness :
    2 < [(1 : ℝ), 2].length + [(3 : ℝ), 4].length ∧
    cohen_d_independent [(1 : ℝ), 2] [3, 4] =
      (specMean [(1 : ℝ), 2] - specMean [(3 : ℝ), 4]) /
        specPooledSD [(1 : ℝ), 2] [3, 4] :=
  ⟨by norm_num, C3_cohen_d_independent_formula [1, 2] [3, 4] (by norm_num)⟩

/-- C4: for every pair of equal-length samples of size at least 2,
cohen_d_paired is the mean of the elementwise differences divided by their
sample-corrected standard deviation. -/
theorem C4_cohen_d_paired_formula (before after : List ℝ)
    (hlen : before.length = after.length) (hn : 2 ≤ before.length) :
    cohen_d_paired before after =
      specMean (List.zipWith (fun u v => u - v) before after) /
        Real.sqrt (specSampleVar (List.zipWith (fun u v => u - v) before after)) :=
  rfl

/-- C4, witness at concrete inputs. -/
theorem C4_cohen_d_paired_formula_witness :
    [(1 : ℝ), 2].length = [(0 : ℝ), 1].length ∧ 2 ≤ [(1 : ℝ), 2].length ∧
    cohen_d_paired [(1 : ℝ), 2] [0, 1] =
      specMean (List.zipWith (fun u v => u - v) [(1 : ℝ), 2] [0, 1]) /
        Real.sqrt (specSampleVar (List.zipWith (fun u v => u - v) [(1 : ℝ), 2] [0, 1])) :=
  ⟨rfl, by norm_num, C4_cohen_d_paired_formula [1, 2] [0, 1] rfl (by norm_num)⟩

/-- C5: for every pair of equal-length samples of size at least 2, the paired
z statistic of analyze_heart is the mean of the differences divided by their
sample-corrected standard deviation over the square root of n, and its
p-value is twice the normal upper tail at the absolute statistic. -/
theorem C5_paired_z_formula (sf : ℝ → ℝ) (before after : List ℝ)
    (hlen : before.length = after.length) (hn : 2 ≤ before.length) :
    heart_z_stat before after = specPairedZ before after ∧
    heart_z_p sf before after = 2 * sf |heart_z_stat before after| :=
  ⟨rfl, rfl⟩

/-- C5, witness at concrete inputs. -/
theorem C5_paired_z_formula_witness :
    [(1 : ℝ), 2].length = [(0 : ℝ), 1].length ∧ 2 ≤ [(1 : ℝ), 2].length ∧
    (heart_z_stat [(1 : ℝ), 2] [0, 1] = specPairedZ [(1 : ℝ), 2] [0, 1] ∧
      heart_z_p (fun t => t) [(1 : ℝ), 2] [0, 1] =
        2 * (fun t => t) |heart_z_stat [(1 : ℝ), 2] [0, 1]|) :=
  ⟨rfl, by norm_num, C5_paired_z_formula (fun t => t) [1, 2] [0, 1] rfl (by norm_num)⟩

/-- C6, amended part: for any F CDF satisfying the reciprocal identity of the
F-distribution family (the probability that an F variable with degrees
(d1, d2) is at most t equals the probability that one with degrees (d2, d1)
is at least the reciprocal of t), swapping the samples inverts the statistic,
and whenever the statistic is not exactly 1 the two-tailed p-value is
unchanged.  At statistic exactly 1 with unequal degrees of freedom the
p-value does change, see the counterexample. -/
theorem C6_f_swap (cdf : ℝ → ℕ → ℕ → ℝ)
    (hrec : ∀ t : ℝ, 0 < t → ∀ d1 d2 : ℕ, cdf t d1 d2 = 1 - cdf t⁻¹ d2 d1)
    (x y : List ℝ) (hx : 2 ≤ x.length) (hy : 2 ≤ y.length)
    (hvx : npVar x ≠ 0) (hvy : npVar y ≠ 0) (hne : fStat x y ≠ 1) :
    fStat x y = 1 / fStat y x ∧ fTwoTailedP cdf x y = fTwoTailedP cdf y x := by
  have hpx : 0 < npVar x := lt_of_le_of_ne (npVar_nonneg x hx) (Ne.symm hvx)
  have hpy : 0 < npVar y := lt_of_le_of_ne (npVar_nonneg y hy) (Ne.symm hvy)
  have hF : 0 < fStat x y := div_pos hpx hpy
  have hswap : fStat y x = (fStat x y)⁻¹ := by
    unfold fStat
    rw [inv_div]
  constructor
  · rw [hswap, one_div, inv_inv]
  · rcases lt_or_gt_of_ne hne with hlt | hgt
    · have hnot : ¬ 1 < fStat x y := not_lt.mpr (le_of_lt hlt)
      have hinv : 1 < fStat y x := by
        rw [hswap]
        exact (one_lt_inv₀ hF).mpr hlt
      unfold fTwoTailedP
      rw [if_neg hnot, if_pos hinv, hswap,
        hrec (fStat x y) hF (x.length - 1) (y.length - 1)]
    · have hinvlt : ¬ 1 < fStat y x := by
        rw [hswap]
        exact not_lt.mpr (le_of_lt (inv_lt_one_of_one_lt₀ hgt))
      unfold fTwoTailedP
      rw [if_pos hgt, if_neg hinvlt, hswap,
        hrec (fStat x y) hF (x.length - 1) (y.length - 1)]
      ring

/-- C6, witness for the amended statement at concrete inputs: variances 1 and
4, statistic one quarter, with the genuine reciprocal F CDF model. -/
theorem C6_f_swap_witness :
    npVar [(0 : ℝ), 1, 2] ≠ 0 ∧ npVar [(0 : ℝ), 2, 4] ≠ 0 ∧
    fStat [(0 : ℝ), 1, 2] [0, 2, 4] ≠ 1 ∧
    (fStat [(0 : ℝ), 1, 2] [0, 2, 4] = 1 / fStat [(0 : ℝ), 2, 4] [0, 1, 2] ∧
      fTwoTailedP fCDFmodel [(0 : ℝ), 1, 2] [0, 2, 4] =
        fTwoTailedP fCDFmodel [(0 : ℝ), 2, 4] [0, 1, 2]) := by
  have h3 : fStat [(0 : ℝ), 1, 2] [0, 2, 4] = 1 / 4 := by
    rw [fStat, npVar_l3, npVar_l3b]
  refine ⟨by rw [npVar_l3]; norm_num, by rw [npVar_l3b]; norm_num,
    by rw [h3]; norm_num,
    C6_f_swap fCDFmodel fCDFmodel_reciprocal [0, 1, 2] [0, 2, 4]
      (by norm_num) (by norm_num) (by rw [npVar_l3]; norm_num)
      (by rw [npVar_l3b]; norm_num) (by rw [h3]; norm_num)⟩

/-- C6, counterexample to the claim as stated: with the genuine F CDF for
degrees of freedom (2, 4) and (4, 2), at samples of sizes 3 and 5 with equal
nonzero variances the statistic is 1 under both orders (so inversion holds),
but the two-tailed p-values under swap are 10/9 and 8/9, which differ. -/
theorem C6_counterexample :
    npVar [(0 : ℝ), 1, 2] = 1 ∧ npVar [(-1 : ℝ), -1, 0, 1, 1] = 1 ∧
    fTwoTailedP fCDFmodel [(0 : ℝ), 1, 2] [-1, -1, 0, 1, 1] = 10 / 9 ∧
    fTwoTailedP fCDFmodel [(-1 : ℝ), -1, 0, 1, 1] [0, 1, 2] = 8 / 9 ∧
    fTwoTailedP fCDFmodel [(-1 : ℝ), -1, 0, 1, 1] [0, 1, 2] <
      fTwoTailedP fCDFmodel [(0 : ℝ), 1, 2] [-1, -1, 0, 1, 1] := by
  refine ⟨npVar_l3, npVar_l5, fP_swap_left, fP_swap_right, ?_⟩
  rw [fP_swap_left, fP_swap_right]
  norm_num

/-- C7: the Welch two-sample t-test is symmetric under swapping its inputs up
to sign, and its two-sided p-value is invariant under the swap, for any t
tail function, since the Welch degrees of freedom are symmetric. -/
theorem C7_welch_swap (sfT : ℝ → ℝ → ℝ) (a b : List ℝ)
    (ha : 2 ≤ a.length) (hb : 2 ≤ b.length) :
    welch_t_stat a b = -welch_t_stat b a ∧ welch_p sfT a b = welch_p sfT b a := by
  have hstat : welch_t_stat a b = -welch_t_stat b a := by
    unfold welch_t_stat
    rw [add_comm (npVar b / (b.length : ℝ)) (npVar a / (a.length : ℝ)),
      ← neg_div, neg_sub]
  have hdf : welch_df a b = welch_df b a := by
    unfold welch_df
    rw [add_comm (npVar b / (b.length : ℝ)) (npVar a / (a.length : ℝ)),
      add_comm ((npVar b / (b.length : ℝ)) ^ 2 / ((b.length : ℝ) - 1))
        ((npVar a / (a.length : ℝ)) ^ 2 / ((a.length : ℝ) - 1))]
  refine ⟨hstat, ?_⟩
  unfold welch_p
  rw [hdf, hstat, abs_neg]

/-- C7, witness at concrete inputs. -/
theorem C7_welch_swap_witness :
    2 ≤ [(1 : ℝ), 2].length ∧ 2 ≤ [(3 : ℝ), 5].length ∧
    (welch_t_stat [(1 : ℝ), 2] [3, 5] = -welch_t_stat [(3 : ℝ), 5] [1, 2] ∧
      welch_p (fun u v => u + v) [(1 : ℝ), 2] [3, 5] =
        welch_p (fun u v => u + v) [(3 : ℝ), 5] [1, 2]) :=
  ⟨by norm_num, by norm_num,
    C7_welch_swap (fun u v => u + v) [1, 2] [3, 5] (by norm_num) (by norm_num)⟩

/-- C9: at the inputs a = [1, 2, 3, 4, 5] and b = [1, 1, 1, 1, 1] of the
F-test, the second sample-corrected variance is exactly 0 while the first is
5/2, and no real number r satisfies r times the zero variance reaching the
nonzero numerator: every real multiple of the denominator stays strictly
below the numerator, so the variance-ratio statistic has no finite real
value and the zero division is not masked. -/
theorem C9_zero_variance_f :
    npVar [(1 : ℝ), 1, 1, 1, 1] = 0 ∧ npVar [(1 : ℝ), 2, 3, 4, 5] = 5 / 2 ∧
    ∀ r : ℝ, r * npVar [(1 : ℝ), 1, 1, 1, 1] < npVar [(1 : ℝ), 2, 3, 4, 5] := by
  have h1 : npVar [(1 : ℝ), 1, 1, 1, 1] = 0 := by norm_num [npVar, npMean]
  have h2 : npVar [(1 : ℝ), 2, 3, 4, 5] = 5 / 2 := by norm_num [npVar, npMean]
  refine ⟨h1, h2, fun r => ?_⟩
  rw [h1, h2]
  norm_num

/-- C10: for equal-length samples of size at least 2 with nonzero standard
deviation of the differences, the paired z statistic of analyze_heart equals
the square root of n times cohen_d_paired. -/
theorem C10_z_eq_sqrt_n_mul_d (before after : List ℝ)
    (hlen : before.length = after.length) (hn : 2 ≤ before.length)
    (hsd : npStd (List.zipWith (fun u v => u - v) before after) ≠ 0) :
    heart_z_stat before after =
      Real.sqrt (before.length : ℝ) * cohen_d_paired before after := by
  unfold heart_z_stat cohen_d_paired
  rw [div_div_eq_mul_div,
    mul_comm (npMean (List.zipWith (fun u v => u - v) before after))
      (Real.sqrt ((before.length : ℝ))),
    mul_div_assoc]

/-- C10, witness at concrete inputs with differences [2, 0], whose ddof=1
standard deviation is the square root of 2, which is nonzero. -/
theorem C10_z_eq_sqrt_n_mul_d_witness :
    [(2 : ℝ), 0].length = [(0 : ℝ), 0].length ∧ 2 ≤ [(2 : ℝ), 0].length ∧
    npStd (List.zipWith (fun u v => u - v) [(2 : ℝ), 0] [0, 0]) ≠ 0 ∧
    heart_z_stat [(2 : ℝ), 0] [0, 0] =
      Real.sqrt (([(2 : ℝ), 0].length : ℝ)) * cohen_d_paired [(2 : ℝ), 0] [0, 0] := by
  have hv : npVar (List.zipWith (fun u v => u - v) [(2 : ℝ), 0] [0, 0]) = 2 := by
    norm_num [npVar, npMean, List.zipWith]
  have hsd : npStd (List.zipWith (fun u v => u - v) [(2 : ℝ), 0] [0, 0]) ≠ 0 := by
    rw [npStd, hv]
    exact ne_of_gt (Real.sqrt_pos.mpr (by norm_num))
  exact ⟨rfl, by norm_num, hsd,
    C10_z_eq_sqrt_n_mul_d [2, 0] [0, 0] rfl (by norm_num) hsd⟩
